import Mathlib

/-!
Verification of the context-compression core (backend/compressor.py,
backend/compress_tf_idf.py, backend/main.py) against its natural-language
specification.

Strings are modelled as `List Char` (Python `str` is a sequence of unicode
code points, as is `List Char`).  Python floats are modelled as `ℚ`: every
arithmetic expression the code evaluates on floats here is a sum of
half-integers far below 2^52, on which IEEE double arithmetic is exact, so
the rational model computes the same values.  Python `int(x)` (truncation
toward zero) is modelled by `pyInt`.
-/

set_option maxRecDepth 100000

namespace CCS

/-- A Python string, modelled as its sequence of code points. -/
abbrev Str := List Char

/-- Python `int(x)` on a float/rational: truncation toward zero. -/
def pyInt (q : ℚ) : ℤ := if 0 ≤ q then ⌊q⌋ else -⌊-q⌋

/-- CJK character test, embedding the regex class `[一-鿿]`
(compressor.py line 77). -/
def isCJK (c : Char) : Bool := 0x4e00 ≤ c.toNat && c.toNat ≤ 0x9fff

/-- ASCII letter test, embedding the regex class `[a-zA-Z]`
(compressor.py line 78). -/
def isLatinLetter (c : Char) : Bool :=
  (97 ≤ c.toNat && c.toNat ≤ 122) || (65 ≤ c.toNat && c.toNat ≤ 90)

/-- Word-character test for the regex word boundary `\b` (Python `\w`):
ASCII alphanumerics, underscore, and the CJK block used by the code.
(Python's unicode `\w` also covers letter/digit characters outside these
ranges; the model treats those as non-word characters, which is the only
idealization and does not affect any input appearing in this development.) -/
def isWordChar (c : Char) : Bool :=
  isLatinLetter c || (48 ≤ c.toNat && c.toNat ≤ 57) || c = '_' || isCJK c

/-- Scanner computing `re.findall(r'\b[a-zA-Z]+\b', text)`
(compressor.py lines 78-79): the maximal ASCII-letter runs whose left and
right neighbours (when present) are non-word characters.
`prevWord`: whether the character before the current position is a word
character; `accRev`: current letter run, reversed; `accOk`: whether the
current run's left boundary was a word boundary. -/
def wordsAux : Bool → List Char → Bool → List Char → List (List Char)
  | _, accRev, accOk, [] =>
      if accRev.isEmpty then [] else if accOk then [accRev.reverse] else []
  | prevWord, accRev, accOk, c :: rest =>
      if isLatinLetter c then
        if accRev.isEmpty then wordsAux true [c] (!prevWord) rest
        else wordsAux true (c :: accRev) accOk rest
      else
        (if !accRev.isEmpty && accOk && !isWordChar c then [accRev.reverse] else [])
          ++ wordsAux (isWordChar c) [] true rest

/-- `re.findall(r'\b[a-zA-Z]+\b', text)` (compressor.py lines 78-79). -/
def latinWords (s : Str) : List (List Char) := wordsAux false [] true s

/-- `chinese_chars = len(re.findall(r'[一-鿿]', text))`
(compressor.py line 77). -/
def chineseChars (s : Str) : ℕ := s.countP (fun c => isCJK c)

/-- `english_words = len(re.findall(r'\b[a-zA-Z]+\b', text))`
(compressor.py line 78). -/
def englishWords (s : Str) : ℕ := (latinWords s).length

/-- `sum(len(word) for word in re.findall(r'\b[a-zA-Z]+\b', text))`
(compressor.py line 79). -/
def latinWordChars (s : Str) : ℕ := ((latinWords s).map List.length).sum

/-- `other_chars = len(text) - chinese_chars - sum(...)`
(compressor.py line 79). -/
def otherChars (s : Str) : ℤ :=
  (s.length : ℤ) - (chineseChars s : ℤ) - (latinWordChars s : ℤ)

/-- `count_tokens` in its heuristic mode (no tokenizer collaborator
configured): `int(chinese_chars * 1.5 + english_words + other_chars * 0.5)`
(compressor.py lines 71-80). -/
def count_tokens (s : Str) : ℤ :=
  pyInt ((chineseChars s : ℚ) * 1.5 + (englishWords s : ℚ)
    + (otherChars s : ℚ) * 0.5)

/-- A role-tagged history entry: the dict `{"role": ..., "message": ...}`
built and consumed by the sectional history compressor
(compressor.py lines 561, 637, 652). -/
structure HEntry where
  role : Str
  message : Str
deriving DecidableEq, Inhabited, Repr

/-- Lower-case hex digit. -/
def hexDigit (n : ℕ) : Char := if n < 10 then Char.ofNat (48 + n) else Char.ofNat (87 + n)

/-- JSON escaping of one character, as `json.dumps(..., ensure_ascii=False)`
performs it: escape the quote, backslash and control characters, leave
everything else (including non-ASCII) as-is. -/
def escapeChar (c : Char) : List Char :=
  if c = '"' then ['\\', '"']
  else if c = '\\' then ['\\', '\\']
  else if c = '\n' then ['\\', 'n']
  else if c = '\t' then ['\\', 't']
  else if c = '\r' then ['\\', 'r']
  else if c.toNat = 8 then ['\\', 'b']
  else if c.toNat = 12 then ['\\', 'f']
  else if c.toNat < 32 then
    ['\\', 'u', '0', '0', hexDigit (c.toNat / 16), hexDigit (c.toNat % 16)]
  else [c]

/-- JSON string literal for `s`, as `json.dumps(s, ensure_ascii=False)`. -/
def dumpStr (s : Str) : Str := '"' :: (s.map escapeChar).flatten ++ ['"']

/-- `json.dumps({"role": r, "message": m}, ensure_ascii=False)`: the dict is
always built with keys in this insertion order (compressor.py line 561,
line 718). -/
def dumpEntry (e : HEntry) : Str :=
  "\x7b\"role\": ".toList ++ dumpStr e.role
    ++ ", \"message\": ".toList ++ dumpStr e.message ++ ['\x7d']

/-- `json.dumps(history_array, ensure_ascii=False)` with default
separators. -/
def dumpsHistory (l : List HEntry) : Str :=
  '[' :: List.intercalate ", ".toList (l.map dumpEntry) ++ [']']

/-- Backward token accumulation (compressor.py lines 632-643): walk the
reversed history, adding `count_tokens(json.dumps(item))` while the running
sum stays within the preserve budget; count how many items fit. -/
def preserveGo (P : ℤ) : List HEntry → ℤ → ℕ → ℕ
  | [], _, k => k
  | e :: rest, used, k =>
      let t := count_tokens (dumpEntry e)
      if used + t ≤ P then preserveGo P rest (used + t) (k + 1) else k

/-- `preserve_items` after the backward scan (compressor.py lines 636-643). -/
def preserveItems (data : List HEntry) (P : ℤ) : ℕ := preserveGo P data.reverse 0 0

/-- `tentative_split_index = total_items - preserve_items`
(compressor.py line 646). -/
def tentativeSplit (data : List HEntry) (P : ℤ) : ℕ :=
  data.length - preserveItems data P

/-- Forward scan for the first `role == "user"` entry at index ≥ b
(compressor.py lines 649-656); returns b itself when none exists. -/
def forwardUser (data : List HEntry) (b : ℕ) : ℕ :=
  match (data.drop b).findIdx? (fun e => e.role == "user".toList) with
  | some j => b + j
  | none => b

/-- Backward scan from b-1 down to 0 for the nearest `role == "user"` entry
(compressor.py lines 660-666). -/
def backwardUser (data : List HEntry) (b : ℕ) : Option ℕ :=
  ((data.take b).enum.reverse.find? (fun p => p.2.role == "user".toList)).map Prod.fst

/-- `final_split_index` (compressor.py lines 649-666).  Note the faithful
guard: the backward scan runs whenever the forward scan left the index equal
to the tentative one — including when the forward scan found a user entry at
exactly that index. -/
def finalSplitIndex (data : List HEntry) (P : ℤ) : ℕ :=
  let b := tentativeSplit data P
  let f := forwardUser data b
  if f = b ∧ 0 < b then
    match backwardUser data b with
    | some i => i
    | none => f
  else f

/-- `keep_items = max(1, int(len(items_to_compress) * compression_ratio))`
(compressor.py lines 697, 722). -/
def keepItems (L : ℕ) (c : ℚ) : ℕ := max 1 (pyInt ((L : ℚ) * c)).toNat

/-- Result dictionary of the sectional history compressor.  `items` is the
parsed form of `compressed_content` (the code re-parses the JSON string with
`json.loads`, which round-trips `json.dumps`); `successFlag` models
`compression_result.get("success", True)` — `true` for every dict the
generative-free paths return, since they either set `"success": True` or
omit the key. -/
structure JHResult where
  compressed_content : Str
  items : List HEntry
  original_tokens : ℤ
  compressed_tokens : ℤ
  ratioReported : ℚ
  successFlag : Bool
  message : Str
deriving DecidableEq, Repr

/-- `_compress_json_history` (compressor.py lines 600-739) with no LLM
client, applied to `json.dumps(data)`.  The `json.loads` at line 624
recovers `data` (round-trip), so the function is modelled directly on the
entry list; all token counts are taken on the serialized strings exactly as
the code takes them.  In the final branch `compression_ratio` is reported as
`1 - final/original` (line 729). -/
def compress_json_history (data : List HEntry) (P : ℤ) (c : ℚ) : JHResult :=
  let content := dumpsHistory data
  let original := count_tokens content
  if original ≤ P then
    { compressed_content := content, items := data, original_tokens := original,
      compressed_tokens := original, ratioReported := 1, successFlag := true,
      message := "Content does not exceed preservation threshold, no compression needed".toList }
  else
    let s := finalSplitIndex data P
    let itemsToCompress := data.take s
    let itemsToPreserve := data.drop s
    if itemsToCompress.isEmpty then
      { compressed_content := content, items := data, original_tokens := original,
        compressed_tokens := original, ratioReported := 1, successFlag := true,
        message := "No items to compress".toList }
    else
      let compressedItems := itemsToCompress.take (keepItems itemsToCompress.length c)
      let finalItems := compressedItems ++ itemsToPreserve
      let finalContent := dumpsHistory finalItems
      let finalTokens := count_tokens finalContent
      { compressed_content := finalContent, items := finalItems,
        original_tokens := original, compressed_tokens := finalTokens,
        ratioReported := 1 - (finalTokens : ℚ) / (original : ℚ),
        successFlag := true,
        message := "Section compression completed".toList }

/-- First index at which `needle` occurs in the remaining text, running
offset `i`; `str.find` semantics (leftmost occurrence). -/
def findSubAux (needle : List Char) (i : ℕ) : List Char → Option ℕ
  | [] => if needle.isEmpty then some i else none
  | a :: t => if needle.isPrefixOf (a :: t) then some i else findSubAux needle (i + 1) t

/-- Python `haystack.find(needle)`, with `none` for -1. -/
def findSub (needle hay : Str) : Option ℕ := findSubAux needle 0 hay

/-- Python `needle in haystack`. -/
def containsSub (needle hay : Str) : Bool := (findSub needle hay).isSome

/-- The whitespace class of Python `str.strip()` (ASCII part; the unicode
whitespace code points play no role in this development). -/
def isPySpace (c : Char) : Bool :=
  c.toNat = 32 || c.toNat = 9 || c.toNat = 10 || c.toNat = 13 || c.toNat = 11 || c.toNat = 12

/-- Python `s.strip()`. -/
def pyStrip (s : Str) : Str :=
  ((s.dropWhile isPySpace).reverse.dropWhile isPySpace).reverse

/-- The role captured by `<entry[^>]*role="([^"]*)"[^>]*>` inside the
attribute span `tag` (the characters between `<entry` and the closing `>`).
The greedy backtracking `[^>]*` selects the rightmost `role="` whose
remainder still contains the closing quote; the capture `[^"]*` then runs to
the next quote. -/
def roleCapture (tag : Str) : Option Str :=
  let starts := (List.range tag.length).filter
    (fun i => "role=\"".toList.isPrefixOf (tag.drop i))
  let cands := starts.filter (fun i => (tag.drop (i + 6)).contains '"')
  match cands.getLast? with
  | some i => some ((tag.drop (i + 6)).takeWhile (fun c => c ≠ '"'))
  | none => none

/-- Attempt to match `<entry[^>]*role="([^"]*)"[^>]*>(.*?)</entry>`
(compressor.py line 554) at the head of `hay`; on success return the two
captures and the length of the whole match.  Since the three `[^>]`/`[^"]`
spans cannot contain `>`, the tag closes at the first `>` after `<entry`
(the one regex corner this does not reproduce is a `>` inside the quoted
role value, which no input in this development has); the non-greedy `(.*?)`
stops at the first `</entry>`. -/
def tryEntryAt (hay : Str) : Option (Str × Str × ℕ) :=
  if "<entry".toList.isPrefixOf hay then
    let rest := hay.drop 6
    let tag := rest.takeWhile (fun c => c ≠ '>')
    if tag.length = rest.length then none
    else
      match roleCapture tag with
      | none => none
      | some r =>
          let afterTag := rest.drop (tag.length + 1)
          match findSub "</entry>".toList afterTag with
          | none => none
          | some bidx => some (r, afterTag.take bidx, 6 + tag.length + 1 + bidx + 8)
  else none

/-- `re.findall` scan: try the entry pattern at every position, resuming
after each complete match (non-overlapping, leftmost).  The fuel starts at
the text length and bounds the number of scan steps. -/
def findEntriesAux : ℕ → Str → List (Str × Str)
  | 0, _ => []
  | fuel + 1, hay =>
      match hay with
      | [] => []
      | _ :: t =>
          match tryEntryAt hay with
          | some (r, b, n) => (r, b) :: findEntriesAux fuel (hay.drop n)
          | none => findEntriesAux fuel t

/-- `re.findall(entry_pattern, history_content, re.DOTALL)`
(compressor.py lines 554-555). -/
def findEntries (hay : Str) : List (Str × Str) := findEntriesAux hay.length hay

/-- One rebuilt history entry
`f'        <entry role="{role}">{message}</entry>'`
(compressor.py line 587). -/
def renderEntry (e : HEntry) : Str :=
  "        <entry role=\"".toList ++ e.role ++ "\">".toList
    ++ e.message ++ "</entry>".toList

/-- The rebuilt HISTORY section (compressor.py line 589). -/
def newHistorySection (items : List HEntry) : Str :=
  "<HISTORY>\n".toList
    ++ List.intercalate "\n".toList (items.map renderEntry)
    ++ "\n    </HISTORY>".toList

/-- Python `hay.replace(needle, repl)`: replace every non-overlapping
occurrence, left to right.  Fuel starts at the text length; each step
consumes at least one character when the needle is non-empty. -/
def replaceAllAux (needle repl : Str) : ℕ → Str → Str
  | 0, hay => hay
  | fuel + 1, hay =>
      match hay with
      | [] => []
      | a :: t =>
          if needle.isPrefixOf (a :: t) then
            repl ++ replaceAllAux needle repl fuel ((a :: t).drop needle.length)
          else a :: replaceAllAux needle repl fuel t

/-- Python `hay.replace(needle, repl)` for non-empty needles (the code only
replaces `'</context>'`). -/
def replaceAll (needle repl hay : Str) : Str :=
  if needle.isEmpty then hay else replaceAllAux needle repl hay.length hay

/-- `xml_content.find('<HISTORY>')` (compressor.py line 543). -/
def xmlHistStart (xml : Str) : Option ℕ := findSub "<HISTORY>".toList xml

/-- `xml_content.find('</HISTORY>') + len('</HISTORY>')` (compressor.py
line 544); `find` yields -1 on failure, so this is 9 in that case and the
source's `history_end == -1` test never fires. -/
def xmlHistEnd (xml : Str) : ℤ :=
  (match findSub "</HISTORY>".toList xml with
   | none => -1
   | some i => (i : ℤ)) + 10

/-- `xml_content[history_start:history_end]` (compressor.py line 549). -/
def xmlHistContent (xml : Str) (hs : ℕ) : Str :=
  (xml.drop hs).take ((xmlHistEnd xml).toNat - hs)

/-- `xml_content[:history_start] + xml_content[history_end:]`
(compressor.py line 550). -/
def xmlWithoutHistory (xml : Str) (hs : ℕ) : Str :=
  xml.take hs ++ xml.drop (xmlHistEnd xml).toNat

/-- The role/message list extracted from the HISTORY span
(compressor.py line 561): note the `.strip()` on each message. -/
def extractedEntries (xml : Str) (hs : ℕ) : List HEntry :=
  (findEntries (xmlHistContent xml hs)).map (fun p => ⟨p.1, pyStrip p.2⟩)

/-- `_compress_xml_history` (compressor.py lines 535-598) with no LLM
client.  The compressed JSON string always starts with `[` (it is a
`json.dumps` of a list), so the bracket-wrapping fallback at lines 576-577
is a no-op and `json.loads` at line 578 recovers `jres.items`. -/
def compress_xml_history (xml : Str) (P : ℤ) (c : ℚ) : JHResult :=
  match xmlHistStart xml with
  | none =>
      { compressed_content := xml, items := [], original_tokens := count_tokens xml,
        compressed_tokens := count_tokens xml, ratioReported := 1, successFlag := true,
        message := "No HISTORY section found".toList }
  | some hs =>
      if xmlHistEnd xml = -1 then
        { compressed_content := xml, items := [], original_tokens := count_tokens xml,
          compressed_tokens := count_tokens xml, ratioReported := 1, successFlag := true,
          message := "No HISTORY section found".toList }
      else
        let entries := findEntries (xmlHistContent xml hs)
        if entries.isEmpty then
          { compressed_content := xml, items := [], original_tokens := count_tokens xml,
            compressed_tokens := count_tokens xml, ratioReported := 1, successFlag := true,
            message := "No entries found in HISTORY section".toList }
        else
          let jres := compress_json_history (entries.map (fun p => ⟨p.1, pyStrip p.2⟩)) P c
          if jres.successFlag then
            let finalXml := replaceAll "</context>".toList
              ("    ".toList ++ newHistorySection jres.items ++ "\n</context>".toList)
              (xmlWithoutHistory xml hs)
            { jres with
              compressed_content := finalXml
              compressed_tokens := count_tokens finalXml
              original_tokens := count_tokens xml }
          else jres

/-- Matcher for `<[^>]+>[^<]*</[^>]+>` anchored at the head of the text.
Each bracketed class is deterministic here: `[^>]+` is the maximal run
without `>` (and must be followed by `>`), `[^<]*` the maximal run without
`<` (and must be followed by `</`). -/
def xmlPairAt : Str → Bool
  | '<' :: rest =>
      let a := rest.takeWhile (fun c => c ≠ '>')
      if a.isEmpty then false
      else
        match rest.drop a.length with
        | '>' :: rest2 =>
            let b := rest2.takeWhile (fun c => c ≠ '<')
            (match rest2.drop b.length with
             | '<' :: '/' :: rest3 =>
                 let d := rest3.takeWhile (fun c => c ≠ '>')
                 if d.isEmpty then false
                 else
                   match rest3.drop d.length with
                   | '>' :: _ => true
                   | _ => false
             | _ => false)
        | _ => false
  | _ => false

/-- `re.search(r'<[^>]+>[^<]*</[^>]+>', content)`: the pattern matches at
some position. -/
def hasXmlPair : Str → Bool
  | [] => false
  | l@(_ :: t) => xmlPairAt l || hasXmlPair t

/-- `_is_xml_content` (compressor.py lines 335-344). -/
def is_xml_content (content : Str) : Bool :=
  let stripped := pyStrip content
  "<?xml".toList.isPrefixOf stripped
    || "<context>".toList.isPrefixOf stripped
    || (containsSub "<message".toList content && containsSub "role=".toList content)
    || hasXmlPair content

/-- `_compress_text_simple` (compressor.py lines 780-847).  The function
body that was meant to implement the fallback packer (lines 798-845) is
indented inside the `if current_tokens <= max_tokens: return content`
branch, after its `return` — it is dead code.  When the token count exceeds
`max_tokens`, control therefore reaches `return compressed_result`
(line 847) with `compressed_result` never assigned, raising
`UnboundLocalError`.  The error outcome is modelled with `Except.error`.
`targetModules` and `c` (the `compression_ratio` argument) mirror the
source's parameters; the reachable code never reads them. -/
def compress_text_simple (content : Str) (targetModules : List Str)
    (maxTokens : ℤ) (c : ℚ) : Except Str Str :=
  let _ := targetModules
  let _ := c
  if count_tokens content ≤ maxTokens then Except.ok content
  else Except.error "UnboundLocalError: local variable compressed_result referenced before assignment".toList

/-- `compress_content` (compressor.py lines 82-147) with no LLM client
configured (`self.client is None`, the "no generative collaborator" case of
the claims).  The two optional preprocessing stages are injected as
function parameters: `tfStage` stands for `_compress_text_by_tf_idf`
(whose scoring lives in the external sklearn collaborator) and `histStage`
for `_compress_sectional_history`'s content projection
(`compress_xml_history`/`compress_json_history` above are its two concrete
bodies).  The top-level short-circuit and the stage gating are the source's
own (lines 100-101, 110-119); `compression_ratio` (line 104) is computed
and passed to `_compress_text_simple`, which never reads it. -/
def compress_content (tfStage histStage : Str → Str) (useTfIdf useHist : Bool)
    (targetModules : List Str) (maxTok : ℤ) (content : Str) : Except Str Str :=
  let originalTokens := count_tokens content
  if originalTokens ≤ maxTok then Except.ok content
  else
    let ratio : ℚ := if 0 < originalTokens then (maxTok : ℚ) / (originalTokens : ℚ) else 1
    let p1 := if useTfIdf && is_xml_content content then tfStage content else content
    let p2 := if useHist && is_xml_content content then histStage p1 else p1
    compress_text_simple p2 targetModules maxTok ratio

/-- `round(x, 4)` with round-half-to-even, on the exact rational. -/
def roundHalfEven (q : ℚ) : ℤ :=
  if 2 * (q - ⌊q⌋) > 1 then ⌊q⌋ + 1
  else if 2 * (q - ⌊q⌋) < 1 then ⌊q⌋
  else if Even ⌊q⌋ then ⌊q⌋ else ⌊q⌋ + 1

/-- `round(actual_ratio, 4)` (compress_tf_idf.py line 144), modelled on the
exact rational value. -/
def round4 (q : ℚ) : ℚ := (roundHalfEven (q * 10000) : ℚ) / 10000

/-- `target_sentences = max(1, int(len(sentences) * compression_ratio))`
(compress_tf_idf.py line 107). -/
def targetCount (n : ℕ) (r : ℚ) : ℕ := max 1 (pyInt ((n : ℚ) * r)).toNat

/-- The sentence-selection core shared by both paths of `compress_by_ratio`
(compress_tf_idf.py lines 121-125 and 129-133): pair each sentence index
with its score, sort by score descending (Python's stable sort with
`reverse=True`), take the first `target` pairs, project the indices, and
sort them ascending. -/
def selectIndices (scores : List ℚ) (target : ℕ) : List ℕ :=
  (((scores.enum.mergeSort (fun a b => decide (b.2 ≤ a.2))).take target).map
    Prod.fst).mergeSort (fun a b => decide (a ≤ b))

/-- Result dictionary of `compress_by_ratio`. -/
structure TCResult where
  compressed_text : Str
  ratioRounded : ℚ
  sentences_kept : ℕ
  sentences_total : ℕ
deriving DecidableEq, Repr

/-- `compress_by_ratio` (compress_tf_idf.py lines 94-147) given that the
segmentation collaborator (`preprocess_text`, which delegates to
nltk/jieba) produced `sentences` from `text` and the sklearn TF-IDF
vectorizer produced the per-sentence score row-sums `scores`.  The
length-ranking fallback path is `compress_by_ratio_fallback` below. -/
def compress_by_ratio_core (text : Str) (sentences : List Str)
    (scores : List ℚ) (isZh : Bool) (r : ℚ) : TCResult :=
  if sentences.isEmpty then
    { compressed_text := text, ratioRounded := 0,
      sentences_kept := 0, sentences_total := 0 }
  else
    let idxs := selectIndices scores (targetCount sentences.length r)
    let selected := idxs.map (fun i => sentences.getD i [])
    let sep := if isZh then "。".toList else ". ".toList
    { compressed_text := List.intercalate sep selected,
      ratioRounded := round4 ((selected.length : ℚ) / (sentences.length : ℚ)),
      sentences_kept := selected.length, sentences_total := sentences.length }

/-- The `except` fallback of `compress_by_ratio` (compress_tf_idf.py lines
127-133): rank by raw character length descending instead of TF-IDF
score. -/
def compress_by_ratio_fallback (text : Str) (sentences : List Str)
    (isZh : Bool) (r : ℚ) : TCResult :=
  compress_by_ratio_core text sentences
    (sentences.map (fun s => (s.length : ℚ))) isZh r

/-- `add_content_to_section` (main.py lines 115-142).  The four
section-specific appenders (`add_background_content_raw` etc.) read the
wall clock for timestamps, so they enter the model as injected collaborator
functions of (xml, content, role); the dispatch itself — and in particular
the absence of any default branch — is the source's.  The returned string
is also what the function writes back to storage (lines 139-140). -/
def add_content_to_section (addBg addPlan addSubApp addHist : Str → Str → Str → Str)
    (sect content role xml : Str) : Str :=
  if sect = "BACKGROUND".toList then addBg xml content role
  else if sect = "PLAN".toList then addPlan xml content role
  else if sect = "SUB_APP".toList then addSubApp xml content role
  else if sect = "HISTORY".toList then addHist xml content role
  else xml

/-- Concrete history for the split-index evaluation: two consecutive user
entries. -/
def splitDemoData : List HEntry :=
  [⟨"user".toList, "alpha beta gamma delta".toList⟩,
   ⟨"user".toList, "hi".toList⟩]

/-- Entry builder for concrete test vectors. -/
def mkEntry (r m : String) : HEntry := ⟨r.toList, m.toList⟩

/-- The six-entry history of spec §8 (roles system, user, assistant, user,
assistant, user), with equal-cost messages. -/
def headDemoData : List HEntry :=
  [mkEntry "system" "mmmmmmmmmm", mkEntry "user" "mmmmmmmmmm",
   mkEntry "assistant" "mmmmmmmmmm", mkEntry "user" "mmmmmmmmmm",
   mkEntry "assistant" "mmmmmmmmmm", mkEntry "user" "mmmmmmmmmm"]

/-- A minimal well-formed document whose HISTORY fits the preserve budget. -/
def noopDemoXml : Str :=
  "<context><HISTORY><entry role=\"user\">hi</entry></HISTORY></context>".toList

/-- The same document with a timestamp attribute on its entry. -/
def tsDemoXml : Str :=
  ("<context><HISTORY><entry role=\"user\" timestamp=\"2024-01-01T00:00:00\">hi"
    ++ "</entry></HISTORY></context>").toList

/-- A plain-text document comfortably above a 10-token budget. -/
def longDemoText : Str :=
  ("The quick brown fox jumps over the lazy dog and keeps running through "
    ++ "the long meadow while the compression system tries to shrink this "
    ++ "document far below its original size").toList

theorem pyInt_eq_floor {q : ℚ} (h : 0 ≤ q) : pyInt q = ⌊q⌋ := if_pos h

theorem isCJK_of_isLatinLetter {c : Char} (h : isLatinLetter c = true) :
    isCJK c = false := by
  simp only [isLatinLetter, Bool.or_eq_true, Bool.and_eq_true,
    decide_eq_true_eq] at h
  have h4 : ¬ (0x4e00 ≤ c.toNat) := by omega
  simp [isCJK, decide_eq_false h4]

theorem wordsAux_sum_le (cs : List Char) : ∀ (pw : Bool) (accRev : List Char)
    (accOk : Bool), cs.countP (fun c => isCJK c)
      + ((wordsAux pw accRev accOk cs).map List.length).sum
      ≤ accRev.length + cs.length := by
  induction cs with
  | nil =>
      intro pw accRev accOk
      cases accRev with
      | nil => simp [wordsAux]
      | cons a as =>
          cases accOk <;>
            simp [wordsAux, List.length_reverse]
  | cons c rest ih =>
      intro pw accRev accOk
      by_cases hL : isLatinLetter c = true
      · have hcjk : isCJK c = false := isCJK_of_isLatinLetter hL
        cases accRev with
        | nil =>
            have h := ih true [c] (!pw)
            simp only [wordsAux, hL, if_true, List.isEmpty_nil,
              List.countP_cons, hcjk, Bool.false_eq_true, if_false,
              List.length_cons, List.length_nil] at h ⊢
            omega
        | cons a as =>
            have h := ih true (c :: a :: as) accOk
            simp only [wordsAux, hL, if_true, List.isEmpty_cons,
              List.countP_cons, hcjk, Bool.false_eq_true, if_false,
              List.length_cons] at h ⊢
            omega
      · have hL' : isLatinLetter c = false := by
          exact Bool.not_eq_true _ ▸ eq_false_of_ne_true hL
        have h := ih (isWordChar c) [] true
        simp only [wordsAux, hL', Bool.false_eq_true, if_false,
          List.countP_cons, List.map_append, List.sum_append,
          List.length_cons, List.length_nil] at h ⊢
        have hc1 : (if isCJK c = true then 1 else 0) ≤ 1 := by
          by_cases h2 : isCJK c = true <;> simp [h2]
        have hemit : ((if !accRev.isEmpty && accOk && !isWordChar c then
            [accRev.reverse] else []).map List.length).sum ≤ accRev.length := by
          by_cases h2 : (!accRev.isEmpty && accOk && !isWordChar c) = true
          · simp [h2, List.length_reverse]
          · simp only [Bool.not_eq_true] at h2
            simp [h2]
        omega

/-- The three character classes partition the text consistently: the CJK
characters and the characters inside matched Latin words never overlap and
never exceed the text, so the code's `other_chars` is non-negative. -/
theorem otherChars_nonneg (s : Str) : 0 ≤ otherChars s := by
  have h := wordsAux_sum_le s false [] true
  simp only [List.length_nil, Nat.zero_add] at h
  have : chineseChars s + latinWordChars s ≤ s.length := h
  simp only [otherChars]
  omega

theorem otherChars_cast (s : Str) : ((otherChars s : ℤ) : ℚ)
    = (s.length : ℚ) - (chineseChars s : ℚ) - (latinWordChars s : ℚ) := by
  simp only [otherChars]
  push_cast
  ring

/-- Claim C7: with no subword-tokenizer collaborator configured,
`count_tokens(text)` equals
`floor(1.5 * chinese_char_count + 1.0 * latin_word_count + 0.5 * remaining_char_count)`
where the remaining count is the character count minus the CJK characters
and the characters inside Latin words, and the result is a non-negative
integer (it is a deterministic pure function by construction). -/
theorem count_tokens_heuristic_formula (s : Str) :
    count_tokens s
      = ⌊(1.5 : ℚ) * (chineseChars s : ℚ) + (1.0 : ℚ) * (englishWords s : ℚ)
          + (0.5 : ℚ)
            * ((s.length : ℚ) - (chineseChars s : ℚ) - (latinWordChars s : ℚ))⌋
    ∧ 0 ≤ count_tokens s := by
  have ho : (0 : ℚ) ≤ (otherChars s : ℚ) := by
    exact_mod_cast otherChars_nonneg s
  have hc : (0 : ℚ) ≤ (chineseChars s : ℚ) := Nat.cast_nonneg _
  have hw : (0 : ℚ) ≤ (englishWords s : ℚ) := Nat.cast_nonneg _
  have hq : (0 : ℚ) ≤ (chineseChars s : ℚ) * 1.5 + (englishWords s : ℚ)
      + (otherChars s : ℚ) * 0.5 := by nlinarith
  have heq : (chineseChars s : ℚ) * 1.5 + (englishWords s : ℚ)
      + (otherChars s : ℚ) * 0.5
      = (1.5 : ℚ) * (chineseChars s : ℚ) + (1.0 : ℚ) * (englishWords s : ℚ)
        + (0.5 : ℚ)
          * ((s.length : ℚ) - (chineseChars s : ℚ) - (latinWordChars s : ℚ)) := by
    rw [← otherChars_cast]
    ring
  constructor
  · rw [count_tokens, pyInt_eq_floor hq, heq]
  · rw [count_tokens, pyInt_eq_floor hq]
    exact Int.le_floor.mpr (by exact_mod_cast hq)

/-- Claim C2, evaluated at its failing input: with history
`[user: "alpha beta gamma delta", user: "hi"]` and preserve budget 13 the
tentative boundary is B = 1 and the entry at index 1 has role "user", so
the claim requires the final split to be 1; the code's backward-scan guard
(`final_split_index == tentative_split_index`) cannot distinguish "no user
found forward" from "user found exactly at B", runs the backward scan, and
moves the split to 0. -/
theorem finalSplit_backward_overrides_user_at_boundary :
    13 < count_tokens (dumpsHistory splitDemoData)
    ∧ tentativeSplit splitDemoData 13 = 1
    ∧ (splitDemoData.getD 1 default).role = "user".toList
    ∧ finalSplitIndex splitDemoData 13 = 0
    ∧ finalSplitIndex splitDemoData 13 ≠ 1 := by
  refine ⟨by with_unfolding_all decide, by with_unfolding_all rfl,
    by with_unfolding_all rfl, by with_unfolding_all rfl,
    by with_unfolding_all decide⟩

/-- Claim C3, refuted at a concrete input: for the six-entry history of
spec §8 with preserve budget 30 and ratio 1/2 the split is 5, so the head
has the first five entries; the claim (and spec §8) predict
`max(1, ceil(5 * 0.5)) = 3` kept head entries, but the code computes
`max(1, int(5 * 0.5)) = 2` (truncation, not ceiling) and keeps two. -/
theorem headKeep_truncates_not_ceils :
    finalSplitIndex headDemoData 30 = 5
    ∧ keepItems 5 (1 / 2) = 2
    ∧ max 1 (Int.toNat ⌈(5 : ℚ) * (1 / 2)⌉) = 3
    ∧ (compress_json_history headDemoData 30 (1 / 2)).items
        = headDemoData.take 2 ++ headDemoData.drop 5
    ∧ (compress_json_history headDemoData 30 (1 / 2)).items
        ≠ headDemoData.take 3 ++ headDemoData.drop 5 := by
  refine ⟨by with_unfolding_all rfl, by with_unfolding_all rfl,
    by with_unfolding_all rfl, by with_unfolding_all rfl,
    by with_unfolding_all decide⟩

/-- Claim C3, amended: in the generative-free fallback, for a non-empty
head and ratio `c ∈ (0,1]`, exactly the first
`max(1, floor(L * c))` head entries are kept verbatim (truncating `int()`,
not ceiling) and the rest of the head is discarded, followed by the
preserved tail. -/
theorem json_history_fallback_keeps_floor_of_head
    (data : List HEntry) (P : ℤ) (c : ℚ) (hc0 : 0 < c) (hc1 : c ≤ 1)
    (hover : P < count_tokens (dumpsHistory data))
    (hhead : data.take (finalSplitIndex data P) ≠ []) :
    (compress_json_history data P c).items
      = (data.take (finalSplitIndex data P)).take
          (max 1 (Int.toNat
            ⌊((data.take (finalSplitIndex data P)).length : ℚ) * c⌋))
        ++ data.drop (finalSplitIndex data P)
    ∧ max 1 (Int.toNat
          ⌊((data.take (finalSplitIndex data P)).length : ℚ) * c⌋)
        ≤ (data.take (finalSplitIndex data P)).length := by
  have hL1 : 1 ≤ (data.take (finalSplitIndex data P)).length :=
    List.length_pos.mpr hhead
  have hpos : (0 : ℚ) ≤ ((data.take (finalSplitIndex data P)).length : ℚ) * c :=
    mul_nonneg (Nat.cast_nonneg _) hc0.le
  have hkeep : keepItems (data.take (finalSplitIndex data P)).length c
      = max 1 (Int.toNat
          ⌊((data.take (finalSplitIndex data P)).length : ℚ) * c⌋) := by
    rw [keepItems, pyInt_eq_floor hpos]
  have hfl : ⌊((data.take (finalSplitIndex data P)).length : ℚ) * c⌋
      ≤ ((data.take (finalSplitIndex data P)).length : ℤ) := by
    have h1 : ((data.take (finalSplitIndex data P)).length : ℚ) * c
        ≤ ((data.take (finalSplitIndex data P)).length : ℚ) :=
      mul_le_of_le_one_right (Nat.cast_nonneg _) hc1
    calc ⌊((data.take (finalSplitIndex data P)).length : ℚ) * c⌋
        ≤ ⌊(((data.take (finalSplitIndex data P)).length : ℕ) : ℚ)⌋ :=
          Int.floor_le_floor h1
    _ = ((data.take (finalSplitIndex data P)).length : ℤ) :=
          Int.floor_natCast _
  have hbound : max 1 (Int.toNat
        ⌊((data.take (finalSplitIndex data P)).length : ℚ) * c⌋)
      ≤ (data.take (finalSplitIndex data P)).length :=
    max_le hL1 (Int.toNat_le.mpr hfl)
  have hemp : (data.take (finalSplitIndex data P)).isEmpty = false :=
    List.isEmpty_eq_false.mpr hhead
  refine ⟨?_, hbound⟩
  rw [compress_json_history]
  simp only [if_neg (not_le.mpr hover), hemp, Bool.false_eq_true, if_false,
    hkeep]

theorem json_history_fallback_keeps_floor_of_head_witness :
    (compress_json_history headDemoData 30 (1 / 2)).items
      = (headDemoData.take (finalSplitIndex headDemoData 30)).take
          (max 1 (Int.toNat
            ⌊((headDemoData.take (finalSplitIndex headDemoData 30)).length : ℚ)
              * (1 / 2)⌋))
        ++ headDemoData.drop (finalSplitIndex headDemoData 30) :=
  (json_history_fallback_keeps_floor_of_head headDemoData 30 (1 / 2)
    (by norm_num) (by norm_num) (by with_unfolding_all decide)
    (by with_unfolding_all decide)).1

/-- Claim C6: whenever the estimated token count of the content is within
`max_token`, `compress_content` returns the content unchanged.  The two
preprocessing stages are universally quantified, so the result cannot
depend on them — no stage runs before the short-circuit. -/
theorem compress_content_noop_within_budget
    (tfStage histStage : Str → Str) (useTfIdf useHist : Bool)
    (targetModules : List Str) (maxTok : ℤ) (content : Str)
    (h : count_tokens content ≤ maxTok) :
    compress_content tfStage histStage useTfIdf useHist targetModules maxTok content
      = Except.ok content := by
  simp only [compress_content, if_pos h]

theorem compress_content_noop_within_budget_witness :
    compress_content id id true true ["all".toList] 1000 "hello world".toList
      = Except.ok "hello world".toList :=
  compress_content_noop_within_budget id id true true ["all".toList] 1000
    "hello world".toList (by with_unfolding_all decide)

/-- Claim C1, evaluated at a failing input: with no generative collaborator
and both preprocessing flags off, a document whose token estimate (44)
exceeds `max_token = 10` reaches `_compress_text_simple`, whose entire
packing body is dead code inside the early-return branch; the function
falls through to `return compressed_result` with the name unbound and
raises `UnboundLocalError` instead of returning a string. -/
theorem compress_content_fallback_raises_eval :
    10 < count_tokens longDemoText
    ∧ compress_content id id false false ["all".toList] 10 longDemoText
        = Except.error "UnboundLocalError: local variable compressed_result referenced before assignment".toList := by
  refine ⟨by with_unfolding_all decide, by with_unfolding_all rfl⟩

/-- The general form of the C1 failure: every content reaching the
generative-free fallback with a token estimate above the budget makes
`_compress_text_simple` raise rather than return. -/
theorem compress_text_simple_raises (content : Str) (targetModules : List Str)
    (maxTokens : ℤ) (c : ℚ) (h : maxTokens < count_tokens content) :
    compress_text_simple content targetModules maxTokens c
      = Except.error "UnboundLocalError: local variable compressed_result referenced before assignment".toList := by
  simp only [compress_text_simple, if_neg (not_le.mpr h)]

theorem compress_text_simple_raises_witness :
    compress_text_simple longDemoText ["all".toList] 10 (1 / 2)
      = Except.error "UnboundLocalError: local variable compressed_result referenced before assignment".toList :=
  compress_text_simple_raises longDemoText ["all".toList] 10 (1 / 2)
    (by with_unfolding_all decide)

/-- Claim C10: for any section name other than the four known ones,
`add_content_to_section` is a silent no-op — it returns the stored XML
unchanged (and that same unchanged string is what it writes back), appends
nothing, and raises nothing; this holds whatever the four section-specific
appenders would do. -/
theorem add_content_unknown_section_noop
    (addBg addPlan addSubApp addHist : Str → Str → Str → Str)
    (sect content role xml : Str)
    (h1 : sect ≠ "BACKGROUND".toList) (h2 : sect ≠ "PLAN".toList)
    (h3 : sect ≠ "SUB_APP".toList) (h4 : sect ≠ "HISTORY".toList) :
    add_content_to_section addBg addPlan addSubApp addHist sect content role xml
      = xml := by
  simp only [add_content_to_section, if_neg h1, if_neg h2, if_neg h3, if_neg h4]

theorem compress_json_history_successFlag (data : List HEntry) (P : ℤ) (c : ℚ) :
    (compress_json_history data P c).successFlag = true := by
  simp only [compress_json_history]
  split_ifs <;> rfl

theorem xmlHistEnd_ne_neg_one (xml : Str) : xmlHistEnd xml ≠ -1 := by
  rw [xmlHistEnd]
  rcases findSub "</HISTORY>".toList xml with _ | i
  · decide
  · show (i : ℤ) + 10 ≠ -1
    omega

/-- On the rebuild path (HISTORY span found, entries extracted, underlying
compression reporting success — which the generative-free paths always do),
`_compress_xml_history` is the underlying JSON compression with the content
replaced by the re-rendered document. -/
theorem compress_xml_history_rebuild (xml : Str) (hs : ℕ) (P : ℤ) (c : ℚ)
    (h1 : xmlHistStart xml = some hs)
    (h2 : findEntries (xmlHistContent xml hs) ≠ []) :
    compress_xml_history xml P c
      = { compress_json_history (extractedEntries xml hs) P c with
          compressed_content :=
            replaceAll "</context>".toList
              ("    ".toList
                ++ newHistorySection
                  (compress_json_history (extractedEntries xml hs) P c).items
                ++ "\n</context>".toList)
              (xmlWithoutHistory xml hs)
          compressed_tokens :=
            count_tokens (replaceAll "</context>".toList
              ("    ".toList
                ++ newHistorySection
                  (compress_json_history (extractedEntries xml hs) P c).items
                ++ "\n</context>".toList)
              (xmlWithoutHistory xml hs))
          original_tokens := count_tokens xml } := by
  have hemp : (findEntries (xmlHistContent xml hs)).isEmpty = false :=
    List.isEmpty_eq_false.mpr h2
  rw [compress_xml_history, h1]
  simp only [if_neg (xmlHistEnd_ne_neg_one xml), hemp, Bool.false_eq_true,
    if_false, compress_json_history_successFlag, if_true, extractedEntries]

/-- Claim C4, amended: for a history whose serialized token estimate is
within the preserve budget, the JSON-list form is returned byte-identical
with reported ratio 1.0; the XML form also reports ratio 1.0 and keeps
exactly the extracted entries, but re-renders them (it is not
byte-identical in general, see the counterexample). -/
theorem history_noop_below_preserve_budget :
    (∀ (data : List HEntry) (P : ℤ) (c : ℚ),
        count_tokens (dumpsHistory data) ≤ P →
        (compress_json_history data P c).compressed_content = dumpsHistory data
        ∧ (compress_json_history data P c).ratioReported = 1)
    ∧ (∀ (xml : Str) (hs : ℕ) (P : ℤ) (c : ℚ),
        xmlHistStart xml = some hs →
        findEntries (xmlHistContent xml hs) ≠ [] →
        count_tokens (dumpsHistory (extractedEntries xml hs)) ≤ P →
        (compress_xml_history xml P c).ratioReported = 1
        ∧ (compress_xml_history xml P c).items = extractedEntries xml hs) := by
  have hjson : ∀ (data : List HEntry) (P : ℤ) (c : ℚ),
      count_tokens (dumpsHistory data) ≤ P →
      (compress_json_history data P c).compressed_content = dumpsHistory data
      ∧ (compress_json_history data P c).ratioReported = 1
      ∧ (compress_json_history data P c).items = data := by
    intro data P c h
    rw [compress_json_history]
    simp only [if_pos h]
    exact ⟨by trivial, by trivial, by trivial⟩
  refine ⟨fun data P c h => ⟨(hjson data P c h).1, (hjson data P c h).2.1⟩,
    fun xml hs P c h1 h2 h3 => ?_⟩
  rw [compress_xml_history_rebuild xml hs P c h1 h2]
  exact ⟨(hjson _ P c h3).2.1, (hjson _ P c h3).2.2⟩

theorem history_noop_below_preserve_budget_witness :
    (compress_json_history [⟨"user".toList, "hi".toList⟩] 500 (3 / 10)).compressed_content
        = dumpsHistory [⟨"user".toList, "hi".toList⟩]
    ∧ (compress_xml_history noopDemoXml 500 (3 / 10)).ratioReported = 1 :=
  ⟨(history_noop_below_preserve_budget.1 [⟨"user".toList, "hi".toList⟩] 500 (3 / 10)
      (by with_unfolding_all decide)).1,
   (history_noop_below_preserve_budget.2 noopDemoXml 9 500 (3 / 10)
      (by with_unfolding_all rfl) (by with_unfolding_all decide)
      (by with_unfolding_all decide)).1⟩

/-- Claim C4, refuted for the XML form at a concrete input: the document's
single-entry history is far below the 500-token preserve budget, the
reported ratio is 1.0, yet the returned document differs byte-wise from the
input (the HISTORY section is re-rendered and repositioned). -/
theorem xml_below_threshold_not_byte_identical :
    count_tokens (dumpsHistory (extractedEntries noopDemoXml 9)) ≤ 500
    ∧ (compress_xml_history noopDemoXml 500 (3 / 10)).ratioReported = 1
    ∧ (compress_xml_history noopDemoXml 500 (3 / 10)).compressed_content
        ≠ noopDemoXml := by
  refine ⟨by with_unfolding_all decide, by with_unfolding_all rfl,
    by with_unfolding_all decide⟩

theorem prefix_split {α : Type} {n x y : List α} {d : α} (hd : d ∉ n)
    (h : n <+: x ++ d :: y) : n <+: x := by
  induction x generalizing n with
  | nil =>
      cases n with
      | nil => exact List.nil_prefix
      | cons a n2 =>
          rw [List.nil_append, List.cons_prefix_cons] at h
          have : d ∈ a :: n2 := by rw [← h.1]; exact List.mem_cons_self a n2
          exact absurd this hd
  | cons b x2 ih =>
      cases n with
      | nil => exact List.nil_prefix
      | cons a n2 =>
          rw [List.cons_append, List.cons_prefix_cons] at h
          have hd2 : d ∉ n2 := fun hm => hd (List.mem_cons_of_mem _ hm)
          exact List.cons_prefix_cons.mpr ⟨h.1, ih hd2 h.2⟩

theorem infix_split {α : Type} {n x y : List α} {d : α} (hd : d ∉ n)
    (h : n <:+: x ++ d :: y) : n <:+: x ∨ n <:+: y := by
  induction x generalizing n with
  | nil =>
      rw [List.nil_append, List.infix_cons_iff] at h
      rcases h with hp | hi
      · cases n with
        | nil => exact Or.inl List.nil_infix
        | cons a n2 =>
            rw [List.cons_prefix_cons] at hp
            have : d ∈ a :: n2 := by rw [← hp.1]; exact List.mem_cons_self a n2
            exact absurd this hd
      · exact Or.inr hi
  | cons b x2 ih =>
      rw [List.cons_append, List.infix_cons_iff] at h
      rcases h with hp | hi
      · exact Or.inl (prefix_split hd (by rwa [List.cons_append])).isInfix
      · rcases ih hd hi with hx | hy
        · exact Or.inl (List.infix_cons hx)
        · exact Or.inr hy

theorem renderEntry_shape (e : HEntry) :
    renderEntry e
      = "        <entry role=".toList
          ++ '"' :: (e.role ++ '"' :: '>' :: (e.message ++ '<' :: "/entry>".toList)) := by
  simp [renderEntry]

/-- The re-rendered entry introduces no timestamp text of its own: if
neither the role nor the message mentions `timestamp`, the rendered
`<entry role="R">M</entry>` does not either — in particular it carries no
timestamp attribute. -/
theorem renderEntry_no_timestamp (e : HEntry)
    (hr : ¬ "timestamp".toList <:+: e.role)
    (hm : ¬ "timestamp".toList <:+: e.message) :
    ¬ "timestamp".toList <:+: renderEntry e := by
  intro h
  rw [renderEntry_shape] at h
  have hq : '"' ∉ "timestamp".toList := by decide
  have hgt : '>' ∉ "timestamp".toList := by decide
  have hlt : '<' ∉ "timestamp".toList := by decide
  rcases infix_split hq h with hA | h1
  · exact absurd hA (by decide)
  · rcases infix_split hq h1 with hR | h2
    · exact hr hR
    · have h2' : "timestamp".toList <:+: ([] : List Char)
          ++ '>' :: (e.message ++ '<' :: "/entry>".toList) := h2
      rcases infix_split hgt h2' with hN | h3
      · rw [List.infix_nil] at hN
        exact absurd hN (by decide)
      · rcases infix_split hlt h3 with hM | hT
        · exact hm hM
        · exact absurd hT (by decide)

/-- Claim C9: on the rebuild path of XML-format history compression, the
output document is the input minus its HISTORY span with the section
re-rendered before `</context>`, each entry printed as
`<entry role="R">message</entry>`; whatever timestamp attributes the input
entries carried are gone — no rendered entry contains timestamp text unless
its own role or message text does. -/
theorem xml_rebuild_drops_timestamps (xml : Str) (hs : ℕ) (P : ℤ) (c : ℚ)
    (h1 : xmlHistStart xml = some hs)
    (h2 : findEntries (xmlHistContent xml hs) ≠ []) :
    (compress_xml_history xml P c).compressed_content
      = replaceAll "</context>".toList
          ("    ".toList
            ++ newHistorySection (compress_xml_history xml P c).items
            ++ "\n</context>".toList)
          (xmlWithoutHistory xml hs)
    ∧ ∀ e ∈ (compress_xml_history xml P c).items,
        ¬ "timestamp".toList <:+: e.role →
        ¬ "timestamp".toList <:+: e.message →
        ¬ "timestamp".toList <:+: renderEntry e := by
  rw [compress_xml_history_rebuild xml hs P c h1 h2]
  exact ⟨rfl, fun e _ hr hm => renderEntry_no_timestamp e hr hm⟩

theorem xml_rebuild_drops_timestamps_witness :
    (compress_xml_history tsDemoXml 500 (3 / 10)).compressed_content
      = replaceAll "</context>".toList
          ("    ".toList
            ++ newHistorySection (compress_xml_history tsDemoXml 500 (3 / 10)).items
            ++ "\n</context>".toList)
          (xmlWithoutHistory tsDemoXml 9)
    ∧ ∀ e ∈ (compress_xml_history tsDemoXml 500 (3 / 10)).items,
        ¬ "timestamp".toList <:+: e.role →
        ¬ "timestamp".toList <:+: e.message →
        ¬ "timestamp".toList <:+: renderEntry e :=
  xml_rebuild_drops_timestamps tsDemoXml 9 500 (3 / 10)
    (by with_unfolding_all rfl) (by with_unfolding_all decide)

theorem add_content_unknown_section_noop_witness :
    add_content_to_section (fun x _ _ => 'b' :: x) (fun x _ _ => 'p' :: x)
      (fun x _ _ => 's' :: x) (fun x _ _ => 'h' :: x)
      "NOTES".toList "some content".toList "system".toList
      "<context></context>".toList
      = "<context></context>".toList :=
  add_content_unknown_section_noop _ _ _ _ _ _ _ _
    (by decide) (by decide) (by decide) (by decide)

/-- The selection core returns exactly `target` indices, strictly
ascending, all valid — for any score assignment. -/
theorem selectIndices_spec (scores : List ℚ) (target : ℕ)
    (ht : target ≤ scores.length) :
    (selectIndices scores target).length = target
    ∧ List.Sorted (· < ·) (selectIndices scores target)
    ∧ ∀ i ∈ selectIndices scores target, i < scores.length := by
  have hperm : List.Perm (scores.enum.mergeSort (fun a b => decide (b.2 ≤ a.2)))
      scores.enum := List.mergeSort_perm _ _
  have hlen_sorted :
      (scores.enum.mergeSort (fun a b => decide (b.2 ≤ a.2))).length
        = scores.length := by
    rw [hperm.length_eq, List.enum_length]
  have hfst_perm :
      List.Perm ((scores.enum.mergeSort (fun a b => decide (b.2 ≤ a.2))).map Prod.fst)
        (List.range scores.length) := by
    have h1 := hperm.map Prod.fst
    rwa [List.enum_map_fst] at h1
  have hnodup_fst :
      ((scores.enum.mergeSort (fun a b => decide (b.2 ≤ a.2))).map Prod.fst).Nodup :=
    hfst_perm.nodup_iff.mpr (List.nodup_range _)
  have hmt : (((scores.enum.mergeSort (fun a b => decide (b.2 ≤ a.2))).take
      target).map Prod.fst)
      = ((scores.enum.mergeSort (fun a b => decide (b.2 ≤ a.2))).map
        Prod.fst).take target := by
    rw [List.map_take]
  have hsub : List.Sublist (((scores.enum.mergeSort (fun a b => decide (b.2 ≤ a.2))).take
      target).map Prod.fst)
      ((scores.enum.mergeSort (fun a b => decide (b.2 ≤ a.2))).map Prod.fst) := by
    rw [hmt]
    exact List.take_sublist _ _
  have hnodup0 : (((scores.enum.mergeSort (fun a b => decide (b.2 ≤ a.2))).take
      target).map Prod.fst).Nodup := hnodup_fst.sublist hsub
  have hlen0 : (((scores.enum.mergeSort (fun a b => decide (b.2 ≤ a.2))).take
      target).map Prod.fst).length = target := by
    rw [List.length_map, List.length_take, hlen_sorted, min_eq_left ht]
  have hperm2 : List.Perm (selectIndices scores target)
      (((scores.enum.mergeSort (fun a b => decide (b.2 ≤ a.2))).take
          target).map Prod.fst) := List.mergeSort_perm _ _
  refine ⟨by rw [hperm2.length_eq, hlen0], ?_, ?_⟩
  · have hsle : (selectIndices scores target).Pairwise
        (fun a b : ℕ => decide (a ≤ b) = true) := by
      exact @List.sorted_mergeSort ℕ (fun a b => decide (a ≤ b))
        (fun a b c hab hbc => decide_eq_true
          (Nat.le_trans (of_decide_eq_true hab) (of_decide_eq_true hbc)))
        (fun a b => by simpa using Nat.le_total a b) _
    have hsle2 : List.Sorted (· ≤ ·) (selectIndices scores target) :=
      hsle.imp (fun hab => of_decide_eq_true hab)
    exact hsle2.lt_of_le (hperm2.nodup_iff.mpr hnodup0)
  · intro i hi
    have h1 := hsub.subset (hperm2.subset hi)
    have h2 := hfst_perm.subset h1
    exact List.mem_range.mp h2

/-- Claim C5: on input segmenting into `n ≥ 1` sentences with ratio
`r ∈ (0,1]`, both the TF-IDF scoring path (arbitrary scores, one per
sentence) and the length-ranking fallback keep exactly
`max(1, floor(n * r))` sentences, and the kept indices are strictly
ascending (original relative order) and in range. -/
theorem summarizer_keeps_target_in_order
    (text : Str) (sentences : List Str) (scores : List ℚ) (isZh : Bool) (r : ℚ)
    (hn : sentences ≠ []) (hr0 : 0 < r) (hr1 : r ≤ 1)
    (hsl : scores.length = sentences.length) :
    (compress_by_ratio_core text sentences scores isZh r).sentences_kept
        = max 1 (Int.toNat ⌊(sentences.length : ℚ) * r⌋)
    ∧ List.Sorted (· < ·)
        (selectIndices scores (targetCount sentences.length r))
    ∧ (∀ i ∈ selectIndices scores (targetCount sentences.length r),
        i < sentences.length)
    ∧ (compress_by_ratio_fallback text sentences isZh r).sentences_kept
        = max 1 (Int.toNat ⌊(sentences.length : ℚ) * r⌋)
    ∧ List.Sorted (· < ·)
        (selectIndices (sentences.map (fun s => (s.length : ℚ)))
          (targetCount sentences.length r)) := by
  have hpos : (0 : ℚ) ≤ (sentences.length : ℚ) * r :=
    mul_nonneg (Nat.cast_nonneg _) hr0.le
  have htc : targetCount sentences.length r
      = max 1 (Int.toNat ⌊(sentences.length : ℚ) * r⌋) := by
    rw [targetCount, pyInt_eq_floor hpos]
  have hn1 : 1 ≤ sentences.length := List.length_pos.mpr hn
  have hfl : ⌊(sentences.length : ℚ) * r⌋ ≤ (sentences.length : ℤ) := by
    have h1 : (sentences.length : ℚ) * r ≤ (sentences.length : ℚ) :=
      mul_le_of_le_one_right (Nat.cast_nonneg _) hr1
    calc ⌊(sentences.length : ℚ) * r⌋ ≤ ⌊((sentences.length : ℕ) : ℚ)⌋ :=
          Int.floor_le_floor h1
    _ = (sentences.length : ℤ) := Int.floor_natCast _
  have hle_n : targetCount sentences.length r ≤ sentences.length := by
    rw [htc]
    exact max_le hn1 (Int.toNat_le.mpr hfl)
  have hemp : sentences.isEmpty = false := List.isEmpty_eq_false.mpr hn
  have hspec1 := selectIndices_spec scores (targetCount sentences.length r)
    (by rw [hsl]; exact hle_n)
  have hspec2 := selectIndices_spec (sentences.map (fun s => (s.length : ℚ)))
    (targetCount sentences.length r) (by rw [List.length_map]; exact hle_n)
  have hkept : ∀ sc : List ℚ, sc.length = sentences.length →
      (compress_by_ratio_core text sentences sc isZh r).sentences_kept
        = max 1 (Int.toNat ⌊(sentences.length : ℚ) * r⌋) := by
    intro sc hscl
    have hs := selectIndices_spec sc (targetCount sentences.length r)
      (by rw [hscl]; exact hle_n)
    simp only [compress_by_ratio_core, hemp, Bool.false_eq_true, if_false]
    rw [List.length_map, hs.1, htc]
  refine ⟨hkept scores hsl, hspec1.2.1, ?_, ?_, hspec2.2.1⟩
  · intro i hi
    have := hspec1.2.2 i hi
    rwa [hsl] at this
  · exact hkept (sentences.map (fun s => (s.length : ℚ))) (by rw [List.length_map])

theorem summarizer_keeps_target_in_order_witness :
    (compress_by_ratio_core "one. two. three. four. five.".toList
        ["one".toList, "two".toList, "three".toList, "four".toList, "five".toList]
        [2, 5, 1, 4, 3] false (1 / 2)).sentences_kept
      = max 1 (Int.toNat ⌊((5 : ℕ) : ℚ) * (1 / 2)⌋) :=
  (summarizer_keeps_target_in_order "one. two. three. four. five.".toList
      ["one".toList, "two".toList, "three".toList, "four".toList, "five".toList]
      [2, 5, 1, 4, 3] false (1 / 2) (by decide)
      (by norm_num) (by norm_num) (by decide)).1

theorem intercalate_singleton (sep : Str) (a : Str) :
    List.intercalate sep [a] = a := by
  simp [List.intercalate]

/-- Claim C8: an input that segments into exactly one sentence is returned
unchanged as the compressed text, for any ratio `r ∈ (0,1]`, any score the
vectorizer assigns to the sentence, and on the length-ranking fallback path
as well — summarization of a single-sentence input is the identity on the
sentence (the target clamps to 1, so exactly that one sentence is kept). -/
theorem summarizer_single_sentence_identity
    (text : Str) (s : Str) (x : ℚ) (isZh : Bool) (r : ℚ)
    (hr0 : 0 < r) (hr1 : r ≤ 1) :
    (compress_by_ratio_core text [s] [x] isZh r).compressed_text = s
    ∧ (compress_by_ratio_core text [s] [x] isZh r).sentences_kept = 1
    ∧ (compress_by_ratio_fallback text [s] isZh r).compressed_text = s
    ∧ (compress_by_ratio_fallback text [s] isZh r).sentences_kept = 1 := by
  have hr : (0 : ℚ) ≤ r := hr0.le
  have htc : targetCount 1 r = 1 := by
    rw [targetCount]
    have h1 : ((1 : ℕ) : ℚ) * r = r := by push_cast; ring
    rw [h1, pyInt_eq_floor hr]
    have h2 : ⌊r⌋ ≤ (1 : ℤ) := by
      calc ⌊r⌋ ≤ ⌊(1 : ℚ)⌋ := Int.floor_le_floor hr1
      _ = 1 := by norm_num
    have h3 : (⌊r⌋).toNat ≤ 1 := Int.toNat_le.mpr (by exact_mod_cast h2)
    omega
  have hsel : ∀ y : ℚ, selectIndices [y] 1 = [0] := by
    intro y
    simp [selectIndices]
  have hcore : ∀ y : ℚ,
      (compress_by_ratio_core text [s] [y] isZh r).compressed_text = s
      ∧ (compress_by_ratio_core text [s] [y] isZh r).sentences_kept = 1 := by
    intro y
    constructor
    · simp only [compress_by_ratio_core, List.isEmpty_cons, Bool.false_eq_true,
        if_false, List.length_cons, List.length_nil, htc, hsel, List.map_cons,
        List.map_nil, List.getD_cons_zero]
      exact intercalate_singleton _ _
    · simp only [compress_by_ratio_core, List.isEmpty_cons, Bool.false_eq_true,
        if_false, List.length_cons, List.length_nil, htc, hsel, List.map_cons,
        List.map_nil, List.getD_cons_zero]
  exact ⟨(hcore x).1, (hcore x).2,
    (hcore (s.length : ℚ)).1, (hcore (s.length : ℚ)).2⟩

theorem summarizer_single_sentence_identity_witness :
    (compress_by_ratio_core "hello world".toList ["hello world".toList]
        [7] false (3 / 10)).compressed_text = "hello world".toList
    ∧ (compress_by_ratio_core "hello world".toList ["hello world".toList]
        [7] false (3 / 10)).sentences_kept = 1
    ∧ (compress_by_ratio_fallback "hello world".toList ["hello world".toList]
        false (3 / 10)).compressed_text = "hello world".toList
    ∧ (compress_by_ratio_fallback "hello world".toList ["hello world".toList]
        false (3 / 10)).sentences_kept = 1 :=
  summarizer_single_sentence_identity "hello world".toList "hello world".toList
    7 false (3 / 10) (by norm_num) (by norm_num)

end CCS
